import Mathlib

/-!
Verification development for the fake-torrent-server repository
(src/server.py, src/settings.py).

Modelling conventions:
* Text (Python str) is embedded as `List Nat` of Unicode codepoints;
  byte strings as `List Nat` with entries below 256 (the content
  identifiers handled here are ASCII, so the two coincide on them).
* Floats (similarity ratios, the match threshold) are embedded as `ℚ`.
* Network calls are inputs: the JSON the external services would return
  is passed to the embedded functions as an argument.
-/

/-- Codepoints of a string literal (used to write concrete inputs). -/
def str2cp (s : String) : List Nat := s.toList.map Char.toNat

/-- ASCII lowercasing of one codepoint: the effect of Python str.lower
on the ASCII range (non-ASCII uppercase is out of scope for the titles
handled here). -/
def lowerChar (c : Nat) : Nat := if 65 ≤ c ∧ c ≤ 90 then c + 32 else c

/-- Python str.lower over a whole string. -/
def lowerList (l : List Nat) : List Nat := l.map lowerChar

/-- The character class of the regex [.\-_–] in normalize_title:
full stop, hyphen-minus, underscore and the en-dash U+2013. -/
def isSep (c : Nat) : Bool := c == 46 || c == 45 || c == 95 || c == 8211

/-- The codepoints matched by Python's regex \s (equivalently the set
stripped by str.strip): ASCII whitespace, the C1 separators 28-31,
NEL, NBSP and the Unicode space characters. -/
def isWS (c : Nat) : Bool :=
  (9 ≤ c && c ≤ 13) || (28 ≤ c && c ≤ 32) || c == 133 || c == 160 ||
  c == 5760 || (8192 ≤ c && c ≤ 8202) || c == 8232 || c == 8233 ||
  c == 8239 || c == 8287 || c == 12288

/-- re.sub of \s+ by a single space: collapse each maximal whitespace
run to one space (codepoint 32).  The Boolean records whether the
previous character was whitespace. -/
def collapseWS : Bool → List Nat → List Nat
  | _, [] => []
  | prevWS, c :: rest =>
    if isWS c then
      if prevWS then collapseWS true rest else 32 :: collapseWS true rest
    else c :: collapseWS false rest

/-- Python str.strip: remove whitespace from both ends. -/
def stripWS (l : List Nat) : List Nat :=
  ((l.dropWhile (fun c => isWS c)).reverse.dropWhile (fun c => isWS c)).reverse

/-- normalize_title from server.py: lowercase, replace each separator
by a space, collapse whitespace runs, strip. -/
def normalize_title (title : List Nat) : List Nat :=
  stripWS (collapseWS false ((title.map lowerChar).map (fun c => if isSep c then 32 else c)))

/-- Length of the longest common prefix of two sequences: the run
length of a match starting at a given pair of positions. -/
def cpl : List Nat → List Nat → Nat
  | x :: xs, y :: ys => if x = y then cpl xs ys + 1 else 0
  | _, _ => 0

/-- difflib SequenceMatcher.find_longest_match with isjunk=None on the
given (sub)sequences: the longest matching block, ties broken by the
earliest start in the first sequence and then the earliest start in the
second; (0, 0, 0) when there is no match at all.  (The autojunk
popular-element filtering of CPython only fires when the second
sequence has at least 200 elements and is not modelled.) -/
def flm (a b : List Nat) : Nat × Nat × Nat :=
  (List.range a.length).foldl (fun best i =>
    (List.range b.length).foldl (fun best j =>
      let k := cpl (a.drop i) (b.drop j)
      if best.2.2 < k then (i, j, k) else best) best) (0, 0, 0)

/-- Total size of the matching blocks found by the recursive
decomposition of difflib get_matching_blocks: take the longest match,
recurse on the parts to its left and to its right.  Any fuel at least
the length of the first sequence suffices. -/
def matchTotal : Nat → List Nat → List Nat → Nat
  | 0, _, _ => 0
  | fuel + 1, a, b =>
    let t := flm a b
    if t.2.2 = 0 then 0
    else matchTotal fuel (a.take t.1) (b.take t.2.1) + t.2.2 +
         matchTotal fuel (a.drop (t.1 + t.2.2)) (b.drop (t.2.1 + t.2.2))

/-- similarity_ratio from server.py: SequenceMatcher(None, a, b).ratio(),
i.e. 2*M/(len a + len b) where M is the total size of the matching
blocks, and 1.0 when both sequences are empty (difflib's
_calculate_ratio). -/
def similarity_ratio (a b : List Nat) : ℚ :=
  if a.length + b.length = 0 then 1
  else 2 * (matchTotal a.length a b : ℚ) / ((a.length : ℚ) + (b.length : ℚ))

/-- One element of the JSON array returned by the zilean search: the
two fields server.py reads, each possibly missing. -/
structure ZileanResult where
  raw_title : Option (List Nat)
  info_hash : Option (List Nat)
deriving DecidableEq

/-- Python truthiness of an optional string: present and non-empty. -/
def truthy : Option (List Nat) → Bool
  | none => false
  | some l => !l.isEmpty

/-- Loop body of the candidate scan in search_zilean (lines 169-184):
skip a result whose raw_title or info_hash is missing or empty,
otherwise score it and keep it when it strictly beats the best so far.
The state is (best_match as (info_hash, raw_title), best_ratio). -/
def scanStep (target : List Nat) (st : Option (List Nat × List Nat) × ℚ)
    (r : ZileanResult) : Option (List Nat × List Nat) × ℚ :=
  if truthy r.raw_title && truthy r.info_hash then
    let rt := r.raw_title.getD []
    let score := similarity_ratio target (normalize_title rt)
    if st.2 < score then (some (r.info_hash.getD [], rt), score) else st
  else st

/-- The whole candidate scan, started from (None, 0.0). -/
def scanCandidates (target : List Nat) (results : List ZileanResult) :
    Option (List Nat × List Nat) × ℚ :=
  results.foldl (scanStep target) (none, 0)

/-- The fixed fallback info-hash of server.py. -/
def fallbackInfohash : List Nat := str2cp "91426fbc17ad836b5a3525aeccbd3360097aeb24"

/-- The magnet-link prefix used when assembling returned links. -/
def magnetPrefixCp : List Nat := str2cp "magnet:?xt=urn:btih:"

/-- Result of the matching part of search_zilean, at the granularity
of the spec's MatchResult: a real match (with the score that was
logged), the fallback substitution, or the TypeError the code would
hit subscripting best_match = None when best_ratio clears the
threshold with no candidate ever tracked. -/
inductive MatchOutcome where
  | fallback : MatchOutcome
  | matched : List Nat → List Nat → ℚ → MatchOutcome
  | typeError : MatchOutcome
deriving DecidableEq

/-- Core of search_zilean once the search response `results` is in
hand (lines 158-191): empty results fall back immediately; otherwise
scan, and return the best candidate when best_ratio reaches the
threshold, the fallback otherwise. -/
def search_zilean_match (target : List Nat) (threshold : ℚ)
    (results : List ZileanResult) : MatchOutcome :=
  if results.isEmpty then .fallback
  else
    let st := scanCandidates target results
    if threshold ≤ st.2 then
      match st.1 with
      | some (ihash, rt) => .matched ihash rt st.2
      | none => .typeError
    else .fallback

/-- The magnet-link string search_zilean actually returns for each
outcome; none models the uncaught TypeError. -/
def magnetOf : MatchOutcome → Option (List Nat)
  | .fallback => some (magnetPrefixCp ++ fallbackInfohash)
  | .matched ihash _ _ => some (magnetPrefixCp ++ ihash)
  | .typeError => none

/-- A candidate that the scan does not skip: both fields present and
non-empty (Python truthiness). -/
def validCand (r : ZileanResult) : Prop :=
  truthy r.raw_title = true ∧ truthy r.info_hash = true

/-- The score search_zilean computes for a candidate. -/
def candScore (target : List Nat) (r : ZileanResult) : ℚ :=
  similarity_ratio target (normalize_title (r.raw_title.getD []))

/-- The parsedMovieInfo fields server.py reads. -/
structure ParsedMovieInfo where
  movieTitle : List Nat
  year : Int
  resolution : Option Int
deriving DecidableEq

/-- The parsedEpisodeInfo fields server.py reads.  seriesTitle is read
with parsed_ep.get("seriesTitle", ""), so a missing key is
indistinguishable from the empty string. -/
structure ParsedEpisodeInfo where
  seriesTitle : List Nat
  seasonNumber : Option Int
  episodeNumbers : List Int
  resolution : Option Int
deriving DecidableEq

instance : Inhabited ParsedEpisodeInfo := ⟨⟨[], none, [], none⟩⟩

/-- The parse-service JSON as server.py reads it: at most one of the
two structured parses, plus the top-level raw title used as the match
target. -/
structure ParsedInfo where
  parsedMovieInfo : Option ParsedMovieInfo
  parsedEpisodeInfo : Option ParsedEpisodeInfo
  title : List Nat
deriving DecidableEq

/-- search_zilean (lines 123-191) with the external search response as
input: the movie branch always proceeds to matching; the TV branch
returns None (no search, no fallback) when the series title is missing
or empty or the season number is missing; otherwise both branches run
the candidate scan on the normalized raw title. -/
def search_zilean (p : ParsedInfo) (threshold : ℚ)
    (results : List ZileanResult) : Option MatchOutcome :=
  match p.parsedMovieInfo with
  | some _ => some (search_zilean_match (normalize_title p.title) threshold results)
  | none =>
    let ep := p.parsedEpisodeInfo.getD default
    if ep.seriesTitle.isEmpty || ep.seasonNumber.isNone then none
    else some (search_zilean_match (normalize_title p.title) threshold results)

/-- Default acceptance threshold from settings.py (MATCH_THRESHOLD = 0.8). -/
def MATCH_THRESHOLD : ℚ := 4 / 5

/-- str(n) for a natural number: base-10 ASCII digits, no leading
zeros, and "0" for 0. -/
def decDigits (n : Nat) : List Nat := (Nat.toDigits 10 n).map Char.toNat

/-- Reduction modulo 2^32, the word size of SHA-1 arithmetic. -/
def w32 (n : Nat) : Nat := n % 4294967296

/-- 32-bit left rotation of a word below 2^32. -/
def rotl (s x : Nat) : Nat := w32 (x * 2 ^ s) + x / 2 ^ (32 - s)

/-- The SHA-1 round constants. -/
def sha1K (t : Nat) : Nat :=
  if t < 20 then 1518500249
  else if t < 40 then 1859775393
  else if t < 60 then 2400959708
  else 3395469782

/-- The SHA-1 round functions (Ch, Parity, Maj, Parity). -/
def sha1F (t b c d : Nat) : Nat :=
  if t < 20 then (b &&& c) ||| ((4294967295 ^^^ b) &&& d)
  else if t < 40 then b ^^^ c ^^^ d
  else if t < 60 then (b &&& c) ||| (b &&& d) ||| (c &&& d)
  else b ^^^ c ^^^ d

/-- Message schedule of one 64-byte block: 16 big-endian words
extended to 80 by the rotated xor recurrence. -/
def sha1W (block : List Nat) : List Nat :=
  let w16 := (List.range 16).map (fun i =>
    block.getD (4 * i) 0 * 16777216 + block.getD (4 * i + 1) 0 * 65536 +
    block.getD (4 * i + 2) 0 * 256 + block.getD (4 * i + 3) 0)
  (List.range 64).foldl (fun w _ =>
    w ++ [rotl 1 (w.getD (w.length - 3) 0 ^^^ w.getD (w.length - 8) 0 ^^^
                  w.getD (w.length - 14) 0 ^^^ w.getD (w.length - 16) 0)]) w16

/-- One SHA-1 round: state (a,b,c,d,e) updated with round index t and
schedule word wt. -/
def sha1Round (st : Nat × Nat × Nat × Nat × Nat) (tw : Nat × Nat) :
    Nat × Nat × Nat × Nat × Nat :=
  (w32 (rotl 5 st.1 + sha1F tw.1 st.2.1 st.2.2.1 st.2.2.2.1 + st.2.2.2.2 +
        sha1K tw.1 + tw.2),
   st.1, rotl 30 st.2.1, st.2.2.1, st.2.2.2.1)

/-- Compression of one 64-byte block into the chaining state. -/
def sha1Block (h : Nat × Nat × Nat × Nat × Nat) (block : List Nat) :
    Nat × Nat × Nat × Nat × Nat :=
  let st := ((List.range 80).zip (sha1W block)).foldl sha1Round h
  (w32 (h.1 + st.1), w32 (h.2.1 + st.2.1), w32 (h.2.2.1 + st.2.2.1),
   w32 (h.2.2.2.1 + st.2.2.2.1), w32 (h.2.2.2.2 + st.2.2.2.2))

/-- Big-endian 8-byte rendering of the bit length in SHA-1 padding. -/
def be64 (n : Nat) : List Nat :=
  [n / 2 ^ 56 % 256, n / 2 ^ 48 % 256, n / 2 ^ 40 % 256, n / 2 ^ 32 % 256,
   n / 2 ^ 24 % 256, n / 2 ^ 16 % 256, n / 2 ^ 8 % 256, n % 256]

/-- SHA-1 padding: 0x80, zeros to 56 mod 64, then the bit length. -/
def sha1Pad (msg : List Nat) : List Nat :=
  msg ++ [128] ++ List.replicate ((119 - msg.length % 64) % 64) 0 ++
  be64 (8 * msg.length)

/-- Fold the compression function over consecutive 64-byte blocks; any
fuel at least the length of the (padded) message suffices. -/
def sha1Blocks : Nat → (Nat × Nat × Nat × Nat × Nat) → List Nat →
    Nat × Nat × Nat × Nat × Nat
  | 0, h, _ => h
  | _ + 1, h, [] => h
  | fuel + 1, h, l => sha1Blocks fuel (sha1Block h (l.take 64)) (l.drop 64)

/-- Big-endian 4-byte rendering of one state word. -/
def be32 (n : Nat) : List Nat :=
  [n / 2 ^ 24 % 256, n / 2 ^ 16 % 256, n / 2 ^ 8 % 256, n % 256]

/-- hashlib.sha1(msg).digest(): the 20-byte SHA-1 digest. -/
def sha1 (msg : List Nat) : List Nat :=
  let p := sha1Pad msg
  let st := sha1Blocks p.length
    (1732584193, 4023233417, 2562383102, 271733878, 3285377520) p
  be32 st.1 ++ be32 st.2.1 ++ be32 st.2.2.1 ++ be32 st.2.2.2.1 ++ be32 st.2.2.2.2

/-- piece_length from generate_torrent: 256 KiB. -/
def piece_length : Nat := 262144

/-- fake_file_size from generate_torrent: 1 GiB. -/
def fake_file_size : Nat := 1073741824

/-- num_pieces from generate_torrent, the ceiling-division formula of
line 237. -/
def num_pieces : Nat := (fake_file_size + piece_length - 1) / piece_length

/-- The digest of one piece: SHA1 of the ASCII bytes of the 40-hex
info-hash followed by the decimal ASCII rendering of the index. -/
def pieceDigest (infohash : List Nat) (i : Nat) : List Nat :=
  sha1 (infohash ++ decDigits i)

/-- all_pieces from generate_torrent (line 240): the digests of pieces
0 .. num_pieces-1 concatenated in ascending index order. -/
def all_pieces (infohash : List Nat) : List Nat :=
  ((List.range num_pieces).map (pieceDigest infohash)).flatten

/-- One hexadecimal ASCII digit, the class [a-fA-F0-9]. -/
def isHexDigit (c : Nat) : Bool :=
  (48 ≤ c && c ≤ 57) || (97 ≤ c && c ≤ 102) || (65 ≤ c && c ≤ 70)

/-- A well-formed content identifier: exactly 40 hex characters. -/
def Is40Hex (l : List Nat) : Prop :=
  l.length = 40 ∧ ∀ c ∈ l, isHexDigit c = true

instance (l : List Nat) : Decidable (Is40Hex l) := by
  unfold Is40Hex
  infer_instance

/-- The literal "btih:" of the extraction regex. -/
def btihCp : List Nat := str2cp "btih:"

/-- Attempt of the regex btih:([a-fA-F0-9]\x7b40\x7d) at one position:
the literal, then at least 40 characters of which the next 40 are hex. -/
def matchBtihAt (l : List Nat) : Option (List Nat) :=
  if l.take 5 = btihCp ∧ 45 ≤ l.length ∧ ((l.drop 5).take 40).all isHexDigit
  then some ((l.drop 5).take 40) else none

/-- re.search of the pattern over the whole magnet link: the leftmost
position where it matches, yielding group(1). -/
def extractInfohash : List Nat → Option (List Nat)
  | [] => none
  | c :: rest =>
    match matchBtihAt (c :: rest) with
    | some h => some h
    | none => extractInfohash rest

/-- Spec-level reading of "contains a content identifier extractable
via the fixed btih:<40-hex> pattern": somewhere in the reference the
literal "btih:" is followed by 40 hex characters. -/
def HasBtih (m : List Nat) : Prop :=
  ∃ k hex rest, m.drop k = btihCp ++ hex ++ rest ∧ hex.length = 40 ∧
    ∀ c ∈ hex, isHexDigit c = true

/-- The announce URL of the generated torrent. -/
def announceUrl : List Nat := str2cp "udp://tracker.opentrackr.org:1337/announce"

/-- Bencoding of a byte string: <decimal length>:<bytes>. -/
def bstr (s : List Nat) : List Nat := decDigits s.length ++ [58] ++ s

/-- Bencoding of an integer: i<decimal digits>e. -/
def bint (n : Int) : List Nat :=
  105 :: (if n < 0 then 45 :: decDigits n.natAbs else decDigits n.natAbs) ++ [101]

/-- bencodepy.encode of the fixed torrent_data dictionary built in
generate_torrent, with the dictionary keys at both nesting levels
emitted in ascending raw-byte order as bencoding requires. -/
def torrentBody (torrent_name pieces : List Nat) (creation_date : Int) : List Nat :=
  [100] ++
  bstr (str2cp "announce") ++ bstr announceUrl ++
  bstr (str2cp "announce-list") ++
    ([108] ++ ([108] ++ bstr announceUrl ++ [101]) ++ [101]) ++
  bstr (str2cp "comment") ++ bstr (str2cp "Created by Simple Torrent Server") ++
  bstr (str2cp "created by") ++ bstr (str2cp "Simple Torrent Server") ++
  bstr (str2cp "creation date") ++ bint creation_date ++
  bstr (str2cp "info") ++
    ([100] ++
     bstr (str2cp "length") ++ bint (fake_file_size : Int) ++
     bstr (str2cp "name") ++ bstr torrent_name ++
     bstr (str2cp "piece length") ++ bint (piece_length : Int) ++
     bstr (str2cp "pieces") ++ bstr pieces ++
     bstr (str2cp "private") ++ bint 1 ++ [101]) ++
  [101]

/-- An HTTP response of the service: a successful body with its media
type, or an HTTPException with status and detail. -/
inductive HttpResult where
  | ok : List Nat → List Nat → HttpResult
  | error : Nat → List Nat → HttpResult
deriving DecidableEq

/-- The status code the caller observes (FastAPI sends 200 for a
returned Response). -/
def httpStatus : HttpResult → Nat
  | .ok _ _ => 200
  | .error s _ => s

/-- generate_torrent (lines 225-268): reject a magnet link in which
the fixed pattern finds no 40-hex identifier with a 400, otherwise
synthesize and bencode the torrent dictionary.  The creation date is
the wall-clock read, passed in. -/
def generate_torrent (torrent_name magnet_link : List Nat)
    (creation_date : Int) : HttpResult :=
  match extractInfohash magnet_link with
  | none => .error 400 (str2cp "Invalid magnet link format")
  | some infohash =>
    .ok (str2cp "application/x-bittorrent")
      (torrentBody torrent_name (all_pieces infohash) creation_date)

/-- Fixed part of the NZB template before the first file-name hole. -/
def nzbA : List Nat :=
  str2cp "<?xml version=\"1.0\" encoding=\"UTF-8\"?>\n<!DOCTYPE nzb PUBLIC \"-//newzBin//DTD NZB 1.1//EN\" \"http://www.newzbin.com/DTD/nzb/nzb-1.1.dtd\">\n<nzb xmlns=\"http://www.newzbin.com/DTD/2003/nzb\">\n    <head>\n        <meta type=\"title\">"

/-- Fixed part of the NZB template between the file name and the
timestamp. -/
def nzbB : List Nat := str2cp "</meta>\n        <meta type=\"date\">"

/-- Fixed part of the NZB template between the timestamp and the
second file-name hole. -/
def nzbC : List Nat :=
  str2cp "</meta>\n    </head>\n    <file poster=\"anonymous@example.com\" date=\"1234567890\" subject=\""

/-- Fixed tail of the NZB template after the second file-name hole. -/
def nzbD : List Nat :=
  str2cp " (1/1)\">\n        <groups>\n            <group>alt.binaries.test</group>\n        </groups>\n        <segments>\n            <segment bytes=\"512000\" number=\"1\">fake-segment-id-1</segment>\n            <segment bytes=\"512000\" number=\"2\">fake-segment-id-2</segment>\n        </segments>\n    </file>\n</nzb>"

/-- The NZB document of generate_nzb (lines 270-289): the f-string
template with the requested file name interpolated twice (title meta
and subject) and the formatted generation time once. -/
def nzbBody (file_name current_time : List Nat) : List Nat :=
  nzbA ++ file_name ++ nzbB ++ current_time ++ nzbC ++ file_name ++ nzbD

/-- generate_nzb (lines 270-300). -/
def generate_nzb (file_name current_time : List Nat) : HttpResult :=
  .ok (str2cp "application/x-nzb") (nzbBody file_name current_time)

/-- get_file (lines 197-223) with the external calls as inputs: reject
an unsupported extension with 400; a None from search_zilean (invalid
episodic parse) becomes a 404 "No matching release found"; an uncaught
TypeError becomes FastAPI's 500; otherwise dispatch on the extension. -/
def get_file (file_name file_type : List Nat) (p : ParsedInfo)
    (threshold : ℚ) (results : List ZileanResult) (creation_date : Int)
    (current_time : List Nat) : HttpResult :=
  if lowerList file_type ≠ str2cp "torrent" ∧ lowerList file_type ≠ str2cp "nzb" then
    .error 400 (str2cp "Unsupported file type")
  else
    match search_zilean p threshold results with
    | none => .error 404 (str2cp "No matching release found")
    | some outcome =>
      match magnetOf outcome with
      | none => .error 500 (str2cp "Internal Server Error")
      | some magnet =>
        if lowerList file_type = str2cp "torrent" then
          generate_torrent file_name magnet creation_date
        else generate_nzb file_name current_time

/-- A codepoint that normalize_title leaves alone: already lowercase,
not a separator, and whitespace only if it is the plain space. -/
def keptChar (c : Nat) : Prop :=
  lowerChar c = c ∧ isSep c = false ∧ (isWS c = true → c = 32)

/-- Two adjacent codepoints are never both whitespace. -/
def noWSPair (a b : Nat) : Prop := isWS a = true → isWS b = true → False

/-- The canonical form normalize_title produces: kept characters only,
no two adjacent whitespace characters, and no whitespace at either
end. -/
def CanonList (l : List Nat) : Prop :=
  (∀ c ∈ l, keptChar c) ∧ l.Chain' noWSPair ∧
  (∀ c, l.head? = some c → isWS c = false) ∧
  (∀ c, l.getLast? = some c → isWS c = false)

theorem lowerChar_idem (c : Nat) : lowerChar (lowerChar c) = lowerChar c := by
  unfold lowerChar
  split
  · split <;> omega
  · rfl

theorem map_id_of_mem {l : List Nat} {f : Nat → Nat} (h : ∀ c ∈ l, f c = c) :
    l.map f = l := by
  induction l with
  | nil => rfl
  | cons c rest ih =>
    simp only [List.map_cons]
    rw [h c (by simp), ih (fun d hd => h d (by simp [hd]))]

theorem mapped_ok (x : List Nat) :
    ∀ c ∈ (x.map lowerChar).map (fun c => if isSep c then 32 else c),
      lowerChar c = c ∧ isSep c = false := by
  intro c hc
  simp only [List.mem_map] at hc
  obtain ⟨b, ⟨a, _, rfl⟩, rfl⟩ := hc
  by_cases h : isSep (lowerChar a) = true
  · rw [if_pos h]
    exact ⟨by decide, by decide⟩
  · rw [if_neg h]
    exact ⟨lowerChar_idem a, by simpa using h⟩

theorem collapse_elems (l : List Nat) :
    ∀ (flag : Bool) (c : Nat),
      c ∈ collapseWS flag l → c = 32 ∨ (c ∈ l ∧ isWS c = false) := by
  induction l with
  | nil => intro flag c hc; simp [collapseWS] at hc
  | cons a rest ih =>
    intro flag c hc
    by_cases hws : isWS a = true
    · cases flag with
      | true =>
        simp only [collapseWS, hws, if_true] at hc
        rcases ih true c hc with h | ⟨h1, h2⟩
        · exact Or.inl h
        · exact Or.inr ⟨by simp [h1], h2⟩
      | false =>
        simp only [collapseWS, hws, if_true] at hc
        rcases List.mem_cons.mp hc with h | h
        · exact Or.inl h
        · rcases ih true c h with h' | ⟨h1, h2⟩
          · exact Or.inl h'
          · exact Or.inr ⟨by simp [h1], h2⟩
    · simp only [collapseWS, hws, if_false, Bool.false_eq_true] at hc
      rcases List.mem_cons.mp hc with h | h
      · subst h
        exact Or.inr ⟨by simp, by simpa using hws⟩
      · rcases ih false c h with h' | ⟨h1, h2⟩
        · exact Or.inl h'
        · exact Or.inr ⟨by simp [h1], h2⟩

theorem collapse_true_head (l : List Nat) :
    ∀ c, (collapseWS true l).head? = some c → isWS c = false := by
  induction l with
  | nil => intro c hc; simp [collapseWS] at hc
  | cons a rest ih =>
    intro c hc
    by_cases hws : isWS a = true
    · simp only [collapseWS, hws, if_true] at hc
      exact ih c hc
    · simp only [collapseWS, hws, if_false, Bool.false_eq_true, List.head?_cons] at hc
      cases hc
      simpa using hws

theorem collapse_chain (l : List Nat) :
    ∀ flag : Bool, (collapseWS flag l).Chain' noWSPair := by
  induction l with
  | nil => intro flag; simp [collapseWS]
  | cons a rest ih =>
    intro flag
    by_cases hws : isWS a = true
    · cases flag with
      | true => simpa only [collapseWS, hws, if_true] using ih true
      | false =>
        simp only [collapseWS, hws, if_true]
        refine List.chain'_cons'.mpr ⟨?_, ih true⟩
        intro y hy _ hyws
        exact absurd (collapse_true_head rest y hy) (by simp [hyws])
    · simp only [collapseWS, hws, if_false, Bool.false_eq_true]
      refine List.chain'_cons'.mpr ⟨?_, ih false⟩
      intro y _ haws _
      exact absurd haws (by simpa using hws)

theorem collapse_id (l : List Nat)
    (helem : ∀ c ∈ l, isWS c = true → c = 32)
    (hchain : l.Chain' noWSPair) :
    collapseWS false l = l ∧
      ((∀ c, l.head? = some c → isWS c = false) → collapseWS true l = l) := by
  induction l with
  | nil => exact ⟨rfl, fun _ => rfl⟩
  | cons a rest ih =>
    obtain ⟨hhead, htail⟩ := List.chain'_cons'.mp hchain
    obtain ⟨ihf, iht⟩ := ih (fun c hc => helem c (by simp [hc])) htail
    by_cases hws : isWS a = true
    · have ha32 : a = 32 := helem a (by simp) hws
      have hresthead : ∀ c, rest.head? = some c → isWS c = false := by
        intro c hc
        by_contra hcontra
        exact hhead c hc hws (by simpa using hcontra)
      constructor
      · simp only [collapseWS, hws, if_true]
        rw [iht hresthead, ha32]
        simp
      · intro hh
        have := hh a (by simp)
        rw [this] at hws
        cases hws
    · constructor
      · simp only [collapseWS, hws, if_false, Bool.false_eq_true]
        rw [ihf]
      · intro _
        simp only [collapseWS, hws, if_false, Bool.false_eq_true]
        rw [ihf]

theorem dropWhile_head_ws (l : List Nat) :
    ∀ c, ((l.dropWhile (fun c => isWS c)).head? = some c) → isWS c = false := by
  induction l with
  | nil => intro c hc; simp at hc
  | cons a rest ih =>
    intro c hc
    by_cases hws : isWS a = true
    · rw [List.dropWhile_cons, if_pos (by simpa using hws)] at hc
      exact ih c hc
    · rw [List.dropWhile_cons, if_neg (by simpa using hws)] at hc
      simp only [List.head?_cons, Option.some.injEq] at hc
      subst hc
      simpa using hws

theorem dropWhile_getLast_ws (l : List Nat) :
    ∀ c, ((l.dropWhile (fun c => isWS c)).getLast? = some c) → l.getLast? = some c := by
  induction l with
  | nil => intro c hc; simp at hc
  | cons a rest ih =>
    intro c hc
    by_cases hws : isWS a = true
    · rw [List.dropWhile_cons, if_pos (by simpa using hws)] at hc
      have := ih c hc
      cases rest with
      | nil => simp at this
      | cons b t => rw [List.getLast?_cons_cons]; exact this
    · rw [List.dropWhile_cons, if_neg (by simpa using hws)] at hc
      exact hc

theorem chain_of_suffix {R : Nat → Nat → Prop} {l l' : List Nat}
    (h : l.Chain' R) (hs : l' <:+ l) : l'.Chain' R := by
  obtain ⟨pre, rfl⟩ := hs
  exact (List.chain'_append.mp h).2.1

theorem chain_reverse_noWS {l : List Nat} (h : l.Chain' noWSPair) :
    l.reverse.Chain' noWSPair := by
  rw [List.chain'_reverse]
  exact h.imp (fun a b hab => fun hb ha => hab ha hb)

theorem dropWhile_eq_self_of_head {l : List Nat}
    (h : ∀ c, l.head? = some c → isWS c = false) :
    l.dropWhile (fun c => isWS c) = l := by
  cases l with
  | nil => rfl
  | cons a rest =>
    rw [List.dropWhile_cons, if_neg]
    simp [h a (by simp)]

theorem stripWS_eq_self {l : List Nat}
    (hh : ∀ c, l.head? = some c → isWS c = false)
    (hl : ∀ c, l.getLast? = some c → isWS c = false) :
    stripWS l = l := by
  unfold stripWS
  rw [dropWhile_eq_self_of_head hh, dropWhile_eq_self_of_head (by simpa using hl),
    List.reverse_reverse]

theorem canon_of_normalize (x : List Nat) : CanonList (normalize_title x) := by
  unfold normalize_title stripWS
  set m := (x.map lowerChar).map (fun c => if isSep c then 32 else c) with hm
  set v := collapseWS false m with hv
  have hvelem : ∀ c ∈ v, keptChar c := by
    intro c hc
    rcases collapse_elems m false c hc with h | ⟨h1, h2⟩
    · subst h
      exact ⟨rfl, rfl, fun _ => rfl⟩
    · obtain ⟨hl, hs⟩ := mapped_ok x c h1
      exact ⟨hl, hs, fun hws => absurd hws (by simp [h2])⟩
  have hvchain : v.Chain' noWSPair := collapse_chain m false
  have hsub1 : (v.dropWhile (fun c => isWS c)) <:+ v := List.dropWhile_suffix _
  set w := (v.dropWhile (fun c => isWS c)).reverse with hw
  have hsub2 : (w.dropWhile (fun c => isWS c)) <:+ w := List.dropWhile_suffix _
  refine ⟨?_, ?_, ?_, ?_⟩
  · intro c hc
    rw [List.mem_reverse] at hc
    have := (List.dropWhile_sublist (l := w) (fun c => isWS c)).subset hc
    rw [hw, List.mem_reverse] at this
    exact hvelem c ((List.dropWhile_sublist _).subset this)
  · exact chain_reverse_noWS
      (chain_of_suffix (chain_reverse_noWS (chain_of_suffix hvchain hsub1)) hsub2)
  · intro c hc
    rw [List.head?_reverse] at hc
    have := dropWhile_getLast_ws w c hc
    rw [hw, List.getLast?_reverse] at this
    exact dropWhile_head_ws v c this
  · intro c hc
    rw [List.getLast?_reverse] at hc
    exact dropWhile_head_ws w c hc

theorem normalize_of_canon {y : List Nat} (h : CanonList y) :
    normalize_title y = y := by
  obtain ⟨helem, hchain, hhead, hlast⟩ := h
  unfold normalize_title
  rw [map_id_of_mem (fun c hc => (helem c hc).1)]
  rw [map_id_of_mem (l := y) (f := fun c => if isSep c then 32 else c)
    (fun c hc => by simp [(helem c hc).2.1])]
  rw [(collapse_id y (fun c hc => (helem c hc).2.2) hchain).1]
  exact stripWS_eq_self hhead hlast

theorem normalize_title_idem (x : List Nat) :
    normalize_title (normalize_title x) = normalize_title x :=
  normalize_of_canon (canon_of_normalize x)

theorem lowerList_map_idem (x : List Nat) :
    (x.map lowerChar).map lowerChar = x.map lowerChar := by
  induction x with
  | nil => rfl
  | cons a r ih => simp [lowerChar_idem, ih]

theorem normalize_lower (x : List Nat) :
    normalize_title (lowerList x) = normalize_title x := by
  unfold normalize_title lowerList
  rw [lowerList_map_idem]

/-- C7: normalize_title is idempotent, insensitive to prior
lowercasing, and identifies "The.Show-S01E02" with
"the show s01e02" (case/separator-insensitivity). -/
theorem c7_normalize_properties :
    (∀ x : List Nat, normalize_title (normalize_title x) = normalize_title x) ∧
    (∀ x : List Nat, normalize_title (lowerList x) = normalize_title x) ∧
    normalize_title (str2cp "The.Show-S01E02") = normalize_title (str2cp "the show s01e02") :=
  ⟨normalize_title_idem, normalize_lower, by decide⟩

theorem foldl_preserve {α β : Type} (P : α → Prop) (f : α → β → α) :
    ∀ (l : List β) (init : α), P init → (∀ st x, P st → x ∈ l → P (f st x)) →
      P (l.foldl f init) := by
  intro l
  induction l with
  | nil => intro init h _; exact h
  | cons a r ih =>
    intro init h hstep
    exact ih (f init a) (hstep init a h (by simp))
      (fun st x hst hx => hstep st x hst (by simp [hx]))

theorem cpl_le_left : ∀ u v : List Nat, cpl u v ≤ u.length := by
  intro u
  induction u with
  | nil => intro v; cases v <;> simp [cpl]
  | cons x xs ih =>
    intro v
    cases v with
    | nil => simp [cpl]
    | cons y ys =>
      simp only [cpl, List.length_cons]
      split
      · have := ih ys; omega
      · omega

theorem cpl_le_right : ∀ u v : List Nat, cpl u v ≤ v.length := by
  intro u
  induction u with
  | nil => intro v; cases v <;> simp [cpl]
  | cons x xs ih =>
    intro v
    cases v with
    | nil => simp [cpl]
    | cons y ys =>
      simp only [cpl, List.length_cons]
      split
      · have := ih ys; omega
      · omega

theorem flm_spec (a b : List Nat) :
    flm a b = (0, 0, 0) ∨
      ((flm a b).1 < a.length ∧ (flm a b).2.1 < b.length ∧
        (flm a b).2.2 = cpl (a.drop (flm a b).1) (b.drop (flm a b).2.1)) := by
  unfold flm
  refine foldl_preserve
    (fun t => t = (0, 0, 0) ∨
      (t.1 < a.length ∧ t.2.1 < b.length ∧ t.2.2 = cpl (a.drop t.1) (b.drop t.2.1)))
    _ _ _ (Or.inl rfl) ?_
  intro st i hst hi
  refine foldl_preserve
    (fun t => t = (0, 0, 0) ∨
      (t.1 < a.length ∧ t.2.1 < b.length ∧ t.2.2 = cpl (a.drop t.1) (b.drop t.2.1)))
    _ _ _ hst ?_
  intro st' j hst' hj
  dsimp only
  split
  · exact Or.inr ⟨List.mem_range.mp hi, List.mem_range.mp hj, rfl⟩
  · exact hst'

theorem matchTotal_le (fuel : Nat) : ∀ a b : List Nat,
    matchTotal fuel a b ≤ a.length ∧ matchTotal fuel a b ≤ b.length := by
  induction fuel with
  | zero => intro a b; simp [matchTotal]
  | succ n ih =>
    intro a b
    by_cases hz : (flm a b).2.2 = 0
    · simp [matchTotal, hz]
    · rcases flm_spec a b with h0 | ⟨h1, h2, h3⟩
      · rw [h0] at hz; simp at hz
      · simp only [matchTotal, hz, if_false]
        obtain ⟨l1a, l1b⟩ := ih (a.take (flm a b).1) (b.take (flm a b).2.1)
        obtain ⟨l2a, l2b⟩ :=
          ih (a.drop ((flm a b).1 + (flm a b).2.2)) (b.drop ((flm a b).2.1 + (flm a b).2.2))
        have hk1 : (flm a b).2.2 ≤ a.length - (flm a b).1 := by
          rw [h3]
          exact le_trans (cpl_le_left _ _) (by rw [List.length_drop])
        have hk2 : (flm a b).2.2 ≤ b.length - (flm a b).2.1 := by
          rw [h3]
          exact le_trans (cpl_le_right _ _) (by rw [List.length_drop])
        simp only [List.length_take, List.length_drop] at l1a l1b l2a l2b
        have l1a' := le_trans l1a (Nat.min_le_left _ _)
        have l1b' := le_trans l1b (Nat.min_le_left _ _)
        constructor <;> omega

theorem similarity_ratio_range (a b : List Nat) :
    0 ≤ similarity_ratio a b ∧ similarity_ratio a b ≤ 1 := by
  unfold similarity_ratio
  split
  · norm_num
  · rename_i h
    have hM := matchTotal_le a.length a b
    have hpos : (0 : ℚ) < (a.length : ℚ) + (b.length : ℚ) := by
      have h0 : 0 < a.length + b.length := Nat.pos_of_ne_zero h
      exact_mod_cast h0
    constructor
    · apply div_nonneg _ (le_of_lt hpos)
      positivity
    · rw [div_le_one hpos]
      have h1 : (matchTotal a.length a b : ℚ) ≤ (a.length : ℚ) := by exact_mod_cast hM.1
      have h2 : (matchTotal a.length a b : ℚ) ≤ (b.length : ℚ) := by exact_mod_cast hM.2
      linarith

theorem cpl_self (x : List Nat) : cpl x x = x.length := by
  induction x with
  | nil => rfl
  | cons a r ih => simp [cpl, ih]

theorem flm_self (x : List Nat) (hx : x ≠ []) : flm x x = (0, 0, x.length) := by
  have hbound : ∀ i j : Nat, cpl (x.drop i) (x.drop j) ≤ x.length :=
    fun i j => le_trans (cpl_le_left _ _) (by rw [List.length_drop]; omega)
  have hlen : 0 < x.length := List.length_pos.mpr hx
  have keep : ∀ (i : Nat) (js : List Nat),
      js.foldl (fun best j =>
        let k := cpl (x.drop i) (x.drop j)
        if best.2.2 < k then (i, j, k) else best) (0, 0, x.length) = (0, 0, x.length) := by
    intro i js
    refine foldl_preserve (fun t => t = (0, 0, x.length)) _ js _ rfl ?_
    intro st j hst _
    dsimp only
    rw [hst, if_neg]
    exact not_lt.mpr (hbound i j)
  have keepOuter : ∀ (is js : List Nat),
      is.foldl (fun best i =>
        js.foldl (fun best j =>
          let k := cpl (x.drop i) (x.drop j)
          if best.2.2 < k then (i, j, k) else best) best) (0, 0, x.length) =
        (0, 0, x.length) := by
    intro is js
    refine foldl_preserve (fun t => t = (0, 0, x.length)) _ is _ rfl ?_
    intro st i hst _
    rw [hst]
    exact keep i js
  obtain ⟨n, hn⟩ : ∃ n, x.length = n + 1 := ⟨x.length - 1, by omega⟩
  have hrange : List.range x.length = 0 :: (List.range n).map (· + 1) := by
    rw [hn, List.range_succ_eq_map]
  unfold flm
  rw [hrange, List.foldl_cons]
  have hfirst : (0 :: (List.range n).map (· + 1)).foldl (fun best j =>
      let k := cpl (x.drop 0) (x.drop j)
      if best.2.2 < k then ((0 : Nat), j, k) else best) (0, 0, 0) = (0, 0, x.length) := by
    rw [List.foldl_cons]
    have h0 : (let k := cpl (x.drop 0) (x.drop 0)
        if ((0 : Nat), (0 : Nat), (0 : Nat)).2.2 < k then ((0 : Nat), (0 : Nat), k)
        else ((0 : Nat), (0 : Nat), (0 : Nat))) = ((0 : Nat), (0 : Nat), x.length) := by
      simp only [List.drop_zero, cpl_self]
      rw [if_pos hlen]
    rw [h0]
    exact keep 0 _
  rw [hfirst]
  exact keepOuter _ _

theorem matchTotal_nil_left (fuel : Nat) (b : List Nat) : matchTotal fuel [] b = 0 := by
  cases fuel with
  | zero => rfl
  | succ n =>
    have h : flm [] b = (0, 0, 0) := rfl
    simp [matchTotal, h]

theorem matchTotal_self (x : List Nat) : matchTotal x.length x x = x.length := by
  cases x with
  | nil => rfl
  | cons a r =>
    have hx : (a :: r) ≠ ([] : List Nat) := by simp
    have h1 : flm (a :: r) (a :: r) = (0, 0, r.length + 1) := by
      rw [flm_self _ hx]
      simp
    have hlen : (a :: r).length = r.length + 1 := by simp
    rw [hlen]
    simp only [matchTotal, h1]
    rw [if_neg (by simp)]
    have hdrop : (a :: r).drop (0 + (r.length + 1)) = [] := by
      apply List.drop_eq_nil_of_le
      simp
    simp [hdrop, matchTotal_nil_left]

theorem similarity_ratio_self (x : List Nat) (hx : x ≠ []) :
    similarity_ratio x x = 1 := by
  have hlen : x.length ≠ 0 := by
    simpa using (List.length_pos.mpr hx).ne'
  unfold similarity_ratio
  rw [if_neg (by omega), matchTotal_self]
  have hq : ((x.length : ℚ)) ≠ 0 := Nat.cast_ne_zero.mpr hlen
  field_simp
  ring

/-- C8 (amended): for every pair of strings the similarity ratio lies
in [0,1], and similarity_ratio x x = 1 for every non-empty x.  The
remaining part of the original claim, symmetry, fails on the code:
see the counterexample theorem. -/
theorem c8_similarity_range_and_refl :
    (∀ a b : List Nat, 0 ≤ similarity_ratio a b ∧ similarity_ratio a b ≤ 1) ∧
    (∀ x : List Nat, x ≠ [] → similarity_ratio x x = 1) :=
  ⟨similarity_ratio_range, similarity_ratio_self⟩

set_option maxRecDepth 8000 in
/-- C8 counterexample: similarity_ratio is not symmetric.  On the pair
"abqcd" / "cdabxq" the block decomposition matches total 3 one way
(ratio 6/11) but only 2 the other way (ratio 4/11), because the
tie-break between the equally long blocks "ab" and "cd" picks the one
starting earliest in the first argument. -/
theorem c8_symmetry_counterexample :
    similarity_ratio (str2cp "abqcd") (str2cp "cdabxq") ≠
      similarity_ratio (str2cp "cdabxq") (str2cp "abqcd") := by
  have h1 : matchTotal (str2cp "abqcd").length (str2cp "abqcd") (str2cp "cdabxq") = 3 := by
    decide
  have h2 : matchTotal (str2cp "cdabxq").length (str2cp "cdabxq") (str2cp "abqcd") = 2 := by
    decide
  unfold similarity_ratio
  rw [h1, h2]
  rw [show (str2cp "abqcd").length = 5 from by decide,
      show (str2cp "cdabxq").length = 6 from by decide]
  norm_num

/-- C8 witness: the reflexivity part applied at the concrete non-empty
string "x". -/
theorem c8_similarity_witness :
    str2cp "x" ≠ [] ∧ similarity_ratio (str2cp "x") (str2cp "x") = 1 :=
  ⟨by decide, c8_similarity_range_and_refl.2 (str2cp "x") (by decide)⟩

theorem truthy_some (o : Option (List Nat)) (h : truthy o = true) :
    o = some (o.getD []) ∧ o.getD [] ≠ [] := by
  cases o with
  | none => cases h
  | some l =>
    simp only [truthy, Bool.not_eq_true'] at h
    exact ⟨rfl, by simpa using h⟩

theorem scanStep_skip (target : List Nat) (st : Option (List Nat × List Nat) × ℚ)
    (r : ZileanResult) (h : ¬ validCand r) : scanStep target st r = st := by
  unfold scanStep
  rw [if_neg]
  intro hc
  rw [Bool.and_eq_true] at hc
  exact h hc

theorem scanStep_keep (target : List Nat) (st : Option (List Nat × List Nat) × ℚ)
    (r : ZileanResult) (hv : validCand r) (hs : ¬ st.2 < candScore target r) :
    scanStep target st r = st := by
  unfold scanStep
  rw [if_pos (by rw [Bool.and_eq_true]; exact ⟨hv.1, hv.2⟩)]
  dsimp only
  rw [if_neg (by simpa [candScore] using hs)]

theorem scanStep_update (target : List Nat) (st : Option (List Nat × List Nat) × ℚ)
    (r : ZileanResult) (hv : validCand r) (hs : st.2 < candScore target r) :
    scanStep target st r =
      (some (r.info_hash.getD [], r.raw_title.getD []), candScore target r) := by
  unfold scanStep
  rw [if_pos (by rw [Bool.and_eq_true]; exact ⟨hv.1, hv.2⟩)]
  dsimp only
  rw [if_pos (by simpa [candScore] using hs)]
  rfl

theorem scanStep_snd_le (target : List Nat) (st : Option (List Nat × List Nat) × ℚ)
    (r : ZileanResult) : st.2 ≤ (scanStep target st r).2 := by
  by_cases hv : validCand r
  · by_cases hs : st.2 < candScore target r
    · rw [scanStep_update target st r hv hs]
      exact le_of_lt hs
    · rw [scanStep_keep target st r hv hs]
  · rw [scanStep_skip target st r hv]

theorem scan_snd_mono (target : List Nat) :
    ∀ (rs : List ZileanResult) (st : Option (List Nat × List Nat) × ℚ),
      st.2 ≤ (rs.foldl (scanStep target) st).2 := by
  intro rs
  induction rs with
  | nil => intro st; exact le_refl _
  | cons r rest ih =>
    intro st
    exact le_trans (scanStep_snd_le target st r) (ih (scanStep target st r))

theorem scan_ub (target : List Nat) :
    ∀ (rs : List ZileanResult) (st : Option (List Nat × List Nat) × ℚ)
      (r : ZileanResult), r ∈ rs → validCand r →
      candScore target r ≤ (rs.foldl (scanStep target) st).2 := by
  intro rs
  induction rs with
  | nil => intro st r hmem; cases hmem
  | cons a rest ih =>
    intro st r hmem hvalid
    rcases List.mem_cons.mp hmem with rfl | hmem'
    · have h1 : candScore target r ≤ (scanStep target st r).2 := by
        by_cases hs : st.2 < candScore target r
        · rw [scanStep_update target st r hvalid hs]
        · rw [scanStep_keep target st r hvalid hs]
          exact le_of_not_lt hs
      exact le_trans h1 (scan_snd_mono target rest _)
    · exact ih _ r hmem' hvalid

theorem scan_shape (target : List Nat) :
    ∀ (rs : List ZileanResult) (st : Option (List Nat × List Nat) × ℚ),
      rs.foldl (scanStep target) st = st ∨
      ∃ l1 r l2, rs = l1 ++ r :: l2 ∧ validCand r ∧
        rs.foldl (scanStep target) st =
          (some (r.info_hash.getD [], r.raw_title.getD []), candScore target r) ∧
        st.2 < candScore target r ∧
        ∀ r' ∈ l1, validCand r' → candScore target r' < candScore target r := by
  intro rs
  induction rs with
  | nil => intro st; exact Or.inl rfl
  | cons a rest ih =>
    intro st
    rw [List.foldl_cons]
    by_cases hv : validCand a
    · by_cases hs : st.2 < candScore target a
      · have hstep := scanStep_update target st a hv hs
        rcases ih (scanStep target st a) with h | ⟨l1, r, l2, hsplit, hvr, heq, hlt, hmax⟩
        · right
          exact ⟨[], a, rest, rfl, hv, by rw [h, hstep], hs, by simp⟩
        · right
          refine ⟨a :: l1, r, l2, by rw [hsplit]; rfl, hvr, heq, ?_, ?_⟩
          · rw [hstep] at hlt
            exact lt_trans hs hlt
          · intro r' hr' hvr'
            rcases List.mem_cons.mp hr' with rfl | h'
            · rw [hstep] at hlt
              exact hlt
            · exact hmax r' h' hvr'
      · have hstep := scanStep_keep target st a hv hs
        rw [hstep]
        rcases ih st with h | ⟨l1, r, l2, hsplit, hvr, heq, hlt, hmax⟩
        · exact Or.inl h
        · right
          refine ⟨a :: l1, r, l2, by rw [hsplit]; rfl, hvr, heq, hlt, ?_⟩
          intro r' hr' hvr'
          rcases List.mem_cons.mp hr' with rfl | h'
          · exact lt_of_le_of_lt (le_of_not_lt hs) hlt
          · exact hmax r' h' hvr'
    · have hstep := scanStep_skip target st a hv
      rw [hstep]
      rcases ih st with h | ⟨l1, r, l2, hsplit, hvr, heq, hlt, hmax⟩
      · exact Or.inl h
      · right
        refine ⟨a :: l1, r, l2, by rw [hsplit]; rfl, hvr, heq, hlt, ?_⟩
        intro r' hr' hvr'
        rcases List.mem_cons.mp hr' with rfl | h'
        · exact absurd hvr' hv
        · exact hmax r' h' hvr'

theorem matched_source (target : List Nat) (threshold : ℚ)
    (results : List ZileanResult) (ihash rt : List Nat) (s : ℚ)
    (h : search_zilean_match target threshold results = .matched ihash rt s) :
    threshold ≤ s ∧ (scanCandidates target results).2 = s ∧
    ∃ l1 r l2, results = l1 ++ r :: l2 ∧ validCand r ∧
      r.info_hash = some ihash ∧ r.raw_title = some rt ∧ candScore target r = s ∧
      (∀ r' ∈ l1, validCand r' → candScore target r' < s) := by
  unfold search_zilean_match at h
  by_cases hemp : results.isEmpty
  · rw [if_pos hemp] at h
    cases h
  · rw [if_neg hemp] at h
    dsimp only at h
    by_cases hth : threshold ≤ (scanCandidates target results).2
    · rw [if_pos hth] at h
      rcases hscan : (scanCandidates target results).1 with _ | ⟨ih0, rt0⟩
      · rw [hscan] at h
        cases h
      · rw [hscan] at h
        injection h with h1 h2 h3
        subst h1
        subst h2
        rcases scan_shape target results (none, 0) with hid | ⟨l1, r, l2, hsplit, hvr, heq, _, hmax⟩
        · have : (scanCandidates target results).1 = none := by
            unfold scanCandidates
            rw [hid]
          rw [hscan] at this
          cases this
        · have heq' : scanCandidates target results =
              (some (r.info_hash.getD [], r.raw_title.getD []), candScore target r) := heq
          have hfst : (scanCandidates target results).1 =
              some (r.info_hash.getD [], r.raw_title.getD []) := by rw [heq']
          rw [hscan] at hfst
          injection hfst with hpair
          injection hpair with hih hrt
          have hsnd : (scanCandidates target results).2 = candScore target r := by rw [heq']
          have hs : s = candScore target r := by rw [← h3, hsnd]
          obtain ⟨hihsome, _⟩ := truthy_some r.info_hash hvr.2
          obtain ⟨hrtsome, _⟩ := truthy_some r.raw_title hvr.1
          refine ⟨by rw [← h3]; exact hth, by rw [hsnd, hs], l1, r, l2, hsplit, hvr, ?_, ?_,
            by rw [hs], ?_⟩
          · rw [hihsome, hih]
          · rw [hrtsome, hrt]
          · intro r' hr' hvr'
            rw [hs]
            exact hmax r' hr' hvr'
    · rw [if_neg hth] at h
      cases h

/-- C2: when the matcher returns a non-fallback result, the score is
at least the configured threshold, and the returned triple comes from
the earliest-seen candidate achieving the strictly greatest
similarity: every valid candidate listed before it scores strictly
lower, and no valid candidate anywhere scores higher. -/
theorem c2_best_match_selection (target : List Nat) (threshold : ℚ)
    (results : List ZileanResult) (ihash rt : List Nat) (s : ℚ)
    (h : search_zilean_match target threshold results = .matched ihash rt s) :
    threshold ≤ s ∧
    ∃ l1 r l2, results = l1 ++ r :: l2 ∧ validCand r ∧
      r.info_hash = some ihash ∧ r.raw_title = some rt ∧ candScore target r = s ∧
      (∀ r' ∈ l1, validCand r' → candScore target r' < s) ∧
      ∀ r' ∈ results, validCand r' → candScore target r' ≤ s := by
  obtain ⟨hth, hsnd, l1, r, l2, hsplit, hvr, hih, hrt, hsc, hmax⟩ :=
    matched_source target threshold results ihash rt s h
  refine ⟨hth, l1, r, l2, hsplit, hvr, hih, hrt, hsc, hmax, ?_⟩
  intro r' hr' hv'
  rw [← hsnd]
  exact scan_ub target results (none, 0) r' hr' hv'

/-- C5: the matcher returns the fallback exactly when the candidate
list is empty or the best ratio stays below the threshold, and the
fallback carries the fixed magnet link with info-hash
91426fbc17ad836b5a3525aeccbd3360097aeb24 (a substitution, not an
exception). -/
theorem c5_fallback_characterization (target : List Nat) (threshold : ℚ)
    (results : List ZileanResult) :
    (search_zilean_match target threshold results = .fallback ↔
      results = [] ∨ (scanCandidates target results).2 < threshold) ∧
    magnetOf .fallback =
      some (str2cp "magnet:?xt=urn:btih:91426fbc17ad836b5a3525aeccbd3360097aeb24") := by
  constructor
  · unfold search_zilean_match
    by_cases hemp : results.isEmpty
    · rw [if_pos hemp]
      have : results = [] := by simpa using hemp
      simp [this]
    · rw [if_neg hemp]
      dsimp only
      by_cases hth : threshold ≤ (scanCandidates target results).2
      · rw [if_pos hth]
        constructor
        · intro h
          rcases hscan : (scanCandidates target results).1 with _ | ⟨ih0, rt0⟩
          · rw [hscan] at h
            cases h
          · rw [hscan] at h
            cases h
        · intro h
          rcases h with rfl | hlt
          · simp at hemp
          · exact absurd hth (not_le.mpr hlt)
      · rw [if_neg hth]
        constructor
        · intro _
          exact Or.inr (not_le.mp hth)
        · intro _
          rfl
  · decide

/-- C10: candidates with a missing (or empty) raw title or info-hash
are skipped without being scored, and every returned non-fallback
triple consists of the literal fields of some supplied candidate that
had both fields present and non-empty — no identifier is fabricated. -/
theorem c10_no_fabrication (target : List Nat) (threshold : ℚ)
    (results : List ZileanResult) :
    (∀ (st : Option (List Nat × List Nat) × ℚ) (r : ZileanResult),
        ¬ validCand r → scanStep target st r = st) ∧
    ∀ ihash rt s, search_zilean_match target threshold results = .matched ihash rt s →
      ∃ r ∈ results, r.raw_title = some rt ∧ r.info_hash = some ihash ∧
        rt ≠ [] ∧ ihash ≠ [] := by
  refine ⟨fun st r h => scanStep_skip target st r h, ?_⟩
  intro ihash rt s h
  obtain ⟨_, _, l1, r, l2, hsplit, hvr, hih, hrt, _, _⟩ :=
    matched_source target threshold results ihash rt s h
  refine ⟨r, by rw [hsplit]; simp, hrt, hih, ?_, ?_⟩
  · obtain ⟨_, hne⟩ := truthy_some r.raw_title hvr.1
    rw [hrt] at hne
    simpa using hne
  · obtain ⟨_, hne⟩ := truthy_some r.info_hash hvr.2
    rw [hih] at hne
    simpa using hne

theorem scan_eval_demo :
    search_zilean_match (str2cp "show s01e02") MATCH_THRESHOLD
      [⟨some (str2cp "Show S01E02"), some (str2cp "abc")⟩] =
      .matched (str2cp "abc") (str2cp "Show S01E02") 1 := by
  have hn : normalize_title (str2cp "Show S01E02") = str2cp "show s01e02" := by decide
  have hv : validCand (⟨some (str2cp "Show S01E02"), some (str2cp "abc")⟩ : ZileanResult) :=
    ⟨by decide, by decide⟩
  have hcs : candScore (str2cp "show s01e02")
      ⟨some (str2cp "Show S01E02"), some (str2cp "abc")⟩ = 1 := by
    unfold candScore
    simp only [Option.getD_some]
    rw [hn]
    exact similarity_ratio_self _ (by decide)
  have hstep : scanStep (str2cp "show s01e02") (none, 0)
      ⟨some (str2cp "Show S01E02"), some (str2cp "abc")⟩ =
      (some (str2cp "abc", str2cp "Show S01E02"), 1) := by
    rw [scanStep_update _ _ _ hv (by rw [hcs]; norm_num), hcs]
    rfl
  have hscan : scanCandidates (str2cp "show s01e02")
      [⟨some (str2cp "Show S01E02"), some (str2cp "abc")⟩] =
      (some (str2cp "abc", str2cp "Show S01E02"), 1) := by
    unfold scanCandidates
    rw [List.foldl_cons, hstep, List.foldl_nil]
  unfold search_zilean_match
  rw [if_neg (by decide)]
  dsimp only
  rw [hscan, if_pos (by norm_num [MATCH_THRESHOLD])]

/-- C2 witness: a concrete run in which the single candidate titled
"Show S01E02" is selected with score 1 ≥ 0.8. -/
theorem c2_best_match_selection_witness :
    search_zilean_match (str2cp "show s01e02") MATCH_THRESHOLD
      [⟨some (str2cp "Show S01E02"), some (str2cp "abc")⟩] =
      .matched (str2cp "abc") (str2cp "Show S01E02") 1 ∧
    MATCH_THRESHOLD ≤ 1 :=
  ⟨scan_eval_demo, (c2_best_match_selection _ _ _ _ _ _ scan_eval_demo).1⟩

theorem scan_eval_demo2 :
    search_zilean_match (str2cp "show s01e02") MATCH_THRESHOLD
      [⟨none, some (str2cp "dead")⟩,
       ⟨some (str2cp "Show S01E02"), some (str2cp "abc")⟩] =
      .matched (str2cp "abc") (str2cp "Show S01E02") 1 := by
  have hn : normalize_title (str2cp "Show S01E02") = str2cp "show s01e02" := by decide
  have hv : validCand (⟨some (str2cp "Show S01E02"), some (str2cp "abc")⟩ : ZileanResult) :=
    ⟨by decide, by decide⟩
  have hcs : candScore (str2cp "show s01e02")
      ⟨some (str2cp "Show S01E02"), some (str2cp "abc")⟩ = 1 := by
    unfold candScore
    simp only [Option.getD_some]
    rw [hn]
    exact similarity_ratio_self _ (by decide)
  have hskip : scanStep (str2cp "show s01e02") (none, 0) ⟨none, some (str2cp "dead")⟩ =
      (none, 0) :=
    scanStep_skip _ _ _ (fun hc => by cases hc.1)
  have hstep : scanStep (str2cp "show s01e02") (none, 0)
      ⟨some (str2cp "Show S01E02"), some (str2cp "abc")⟩ =
      (some (str2cp "abc", str2cp "Show S01E02"), 1) := by
    rw [scanStep_update _ _ _ hv (by rw [hcs]; norm_num), hcs]
    rfl
  have hscan : scanCandidates (str2cp "show s01e02")
      [⟨none, some (str2cp "dead")⟩,
       ⟨some (str2cp "Show S01E02"), some (str2cp "abc")⟩] =
      (some (str2cp "abc", str2cp "Show S01E02"), 1) := by
    unfold scanCandidates
    rw [List.foldl_cons, hskip, List.foldl_cons, hstep, List.foldl_nil]
  unfold search_zilean_match
  rw [if_neg (by decide)]
  dsimp only
  rw [hscan, if_pos (by norm_num [MATCH_THRESHOLD])]

/-- C10 witness: a concrete run in which a candidate with a missing
raw title is skipped and the returned info-hash and title are literal
fields of the valid supplied candidate. -/
theorem c10_no_fabrication_witness :
    search_zilean_match (str2cp "show s01e02") MATCH_THRESHOLD
      [⟨none, some (str2cp "dead")⟩,
       ⟨some (str2cp "Show S01E02"), some (str2cp "abc")⟩] =
      .matched (str2cp "abc") (str2cp "Show S01E02") 1 ∧
    ∃ r ∈ [(⟨none, some (str2cp "dead")⟩ : ZileanResult),
           ⟨some (str2cp "Show S01E02"), some (str2cp "abc")⟩],
      r.raw_title = some (str2cp "Show S01E02") ∧ r.info_hash = some (str2cp "abc") ∧
      str2cp "Show S01E02" ≠ [] ∧ str2cp "abc" ≠ [] :=
  ⟨scan_eval_demo2, (c10_no_fabrication _ _ _).2 _ _ _ scan_eval_demo2⟩

theorem sha1_length (msg : List Nat) : (sha1 msg).length = 20 := by
  unfold sha1 be32
  simp

theorem flatten_slice20 : ∀ (L : List (List Nat)) (i : Nat),
    (∀ l ∈ L, l.length = 20) → i < L.length →
    (L.flatten.drop (20 * i)).take 20 = L.getD i [] := by
  intro L
  induction L with
  | nil => intro i _ hi; simp at hi
  | cons x rest ih =>
    intro i h20 hi
    have hx : x.length = 20 := h20 x (by simp)
    cases i with
    | zero =>
      simp only [Nat.mul_zero, List.drop_zero, List.flatten_cons]
      rw [List.take_left' hx]
      rfl
    | succ n =>
      simp only [List.flatten_cons]
      rw [List.drop_append_eq_append_drop]
      rw [List.drop_eq_nil_of_le (by rw [hx]; omega)]
      rw [List.nil_append, hx]
      have harith : 20 * (n + 1) - 20 = 20 * n := by omega
      rw [harith]
      rw [ih n (fun l hl => h20 l (by simp [hl])) (by simpa using hi)]
      rfl

/-- C1: for every 40-hex content identifier and every piece index
below num_pieces = 4096, the 20-byte slice of all_pieces at offset
20*i equals SHA1 of the ASCII bytes of the identifier followed by the
base-10 ASCII rendering of i — the pieces blob is precisely the
digests laid out in ascending index order, each a pure function of
(contentId, i). -/
theorem c1_piece_digest (infohash : List Nat) (hhex : Is40Hex infohash)
    (i : Nat) (hi : i < num_pieces) :
    ((all_pieces infohash).drop (20 * i)).take 20 = sha1 (infohash ++ decDigits i) := by
  have h20 : ∀ l ∈ (List.range num_pieces).map (pieceDigest infohash), l.length = 20 := by
    intro l hl
    obtain ⟨j, _, rfl⟩ := List.mem_map.mp hl
    exact sha1_length _
  unfold all_pieces
  rw [flatten_slice20 _ i h20 (by simpa using hi)]
  have hlen : i < ((List.range num_pieces).map (pieceDigest infohash)).length := by
    simpa using hi
  rw [List.getD_eq_getElem _ _ hlen]
  simp [pieceDigest]

/-- C1 witness: the fallback identifier is 40 hex characters, index 0
is a valid piece index, and the first slice of the blob is the SHA1 of
identifier ++ "0". -/
theorem c1_piece_digest_witness :
    Is40Hex (str2cp "91426fbc17ad836b5a3525aeccbd3360097aeb24") ∧ 0 < num_pieces ∧
    ((all_pieces (str2cp "91426fbc17ad836b5a3525aeccbd3360097aeb24")).drop (20 * 0)).take 20 =
      sha1 (str2cp "91426fbc17ad836b5a3525aeccbd3360097aeb24" ++ decDigits 0) :=
  ⟨by decide, by decide, c1_piece_digest _ (by decide) 0 (by decide)⟩

/-- C6: num_pieces is the ceiling division (totalLength + pieceLength
- 1) / pieceLength, equals the mathematical ceiling of
totalLength/pieceLength, equals 4096, and the pieces blob of any valid
40-hex identifier has length num_pieces * 20 = 81920 bytes. -/
theorem c6_piece_count_and_length (infohash : List Nat) (hhex : Is40Hex infohash) :
    num_pieces = (fake_file_size + piece_length - 1) / piece_length ∧
    (num_pieces : ℤ) = ⌈(fake_file_size : ℚ) / (piece_length : ℚ)⌉ ∧
    num_pieces = 4096 ∧
    (all_pieces infohash).length = num_pieces * 20 ∧
    num_pieces * 20 = 81920 := by
  have hnp : num_pieces = 4096 := by norm_num [num_pieces, fake_file_size, piece_length]
  refine ⟨rfl, ?_, hnp, ?_, by rw [hnp]⟩
  · have hdiv : (fake_file_size : ℚ) / (piece_length : ℚ) = ((4096 : ℤ) : ℚ) := by
      norm_num [fake_file_size, piece_length]
    rw [hnp, hdiv, Int.ceil_intCast]
    norm_num
  · unfold all_pieces
    rw [List.length_flatten, List.map_map]
    have hconst : (List.length ∘ pieceDigest infohash) = fun _ => 20 :=
      funext (fun j => sha1_length _)
    rw [hconst, List.map_const', List.sum_replicate, List.length_range, smul_eq_mul]

/-- C6 witness: a concrete 40-hex identifier for which the blob length
equation holds. -/
theorem c6_piece_count_and_length_witness :
    Is40Hex (str2cp "41e6cd50ccec55cd5704c5e3d176e7b59317a3fb") ∧
    (all_pieces (str2cp "41e6cd50ccec55cd5704c5e3d176e7b59317a3fb")).length =
      num_pieces * 20 :=
  ⟨by decide, ((c6_piece_count_and_length _ (by decide)).2.2.2).1⟩

theorem matchBtihAt_some {l h : List Nat} (hm : matchBtihAt l = some h) :
    Is40Hex h ∧ l.take 5 = btihCp ∧ 45 ≤ l.length ∧ h = (l.drop 5).take 40 := by
  unfold matchBtihAt at hm
  by_cases hc : l.take 5 = btihCp ∧ 45 ≤ l.length ∧ ((l.drop 5).take 40).all isHexDigit
  · rw [if_pos hc] at hm
    injection hm with hh
    subst hh
    obtain ⟨h1, h2, h3⟩ := hc
    refine ⟨⟨?_, fun c hc' => List.all_eq_true.mp h3 c hc'⟩, h1, h2, rfl⟩
    rw [List.length_take, List.length_drop]
    omega
  · rw [if_neg hc] at hm
    cases hm

theorem extract_is40hex : ∀ (m h : List Nat), extractInfohash m = some h → Is40Hex h := by
  intro m
  induction m with
  | nil => intro h hm; cases hm
  | cons c rest ih =>
    intro h hm
    unfold extractInfohash at hm
    rcases hmb : matchBtihAt (c :: rest) with _ | h'
    · rw [hmb] at hm
      exact ih h hm
    · rw [hmb] at hm
      injection hm with hh
      subst hh
      exact (matchBtihAt_some hmb).1

theorem matchBtihAt_none_iff (l : List Nat) :
    matchBtihAt l = none ↔
      ¬ ∃ hex rest, l = btihCp ++ hex ++ rest ∧ hex.length = 40 ∧
          ∀ c ∈ hex, isHexDigit c = true := by
  constructor
  · rintro hn ⟨hex, rest, heq, hlen, hhex⟩
    have hb5 : btihCp.length = 5 := by decide
    have htake : l.take 5 = btihCp := by
      rw [heq, List.append_assoc, List.take_left' hb5]
    have hdrop : l.drop 5 = hex ++ rest := by
      rw [heq, List.append_assoc, List.drop_left' hb5]
    have hlength : 45 ≤ l.length := by
      rw [heq]
      simp only [List.length_append, hlen, hb5]
      omega
    have hhex' : ((l.drop 5).take 40).all isHexDigit = true := by
      rw [hdrop, List.take_left' hlen]
      exact List.all_eq_true.mpr hhex
    unfold matchBtihAt at hn
    rw [if_pos ⟨htake, hlength, hhex'⟩] at hn
    cases hn
  · intro hn
    unfold matchBtihAt
    rw [if_neg]
    rintro ⟨h1, h2, h3⟩
    apply hn
    refine ⟨(l.drop 5).take 40, (l.drop 5).drop 40, ?_, ?_,
      fun c hc => List.all_eq_true.mp h3 c hc⟩
    · rw [List.append_assoc, List.take_append_drop, ← h1, List.take_append_drop]
    · rw [List.length_take, List.length_drop]
      omega

theorem extract_none_iff : ∀ m : List Nat, extractInfohash m = none ↔ ¬ HasBtih m := by
  intro m
  induction m with
  | nil =>
    constructor
    · rintro _ ⟨k, hex, rest, heq, hlen, _⟩
      rw [List.drop_nil] at heq
      have hlth := congrArg List.length heq
      have hb5 : btihCp.length = 5 := by decide
      simp only [List.length_nil, List.length_append, hlen, hb5] at hlth
      omega
    · intro _
      rfl
  | cons c rest ih =>
    unfold extractInfohash
    rcases hmb : matchBtihAt (c :: rest) with _ | h'
    · rw [ih]
      constructor
      · rintro hnr ⟨k, hex, r2, heq, hlen, hhex⟩
        cases k with
        | zero =>
          rw [List.drop_zero] at heq
          exact (matchBtihAt_none_iff _).mp hmb ⟨hex, r2, heq, hlen, hhex⟩
        | succ k' =>
          exact hnr ⟨k', hex, r2, by simpa using heq, hlen, hhex⟩
      · rintro hn ⟨k, hex, r2, heq, hlen, hhex⟩
        exact hn ⟨k + 1, hex, r2, by simpa using heq, hlen, hhex⟩
    · constructor
      · intro hcontra
        cases hcontra
      · intro hn
        exfalso
        apply hn
        obtain ⟨h40, htake, hlen5, hform⟩ := matchBtihAt_some hmb
        refine ⟨0, h', ((c :: rest).drop 5).drop 40, ?_, h40.1,
          fun c' hc' => h40.2 c' hc'⟩
        rw [List.drop_zero, hform, List.append_assoc, List.take_append_drop,
          ← htake, List.take_append_drop]

/-- C4: generate_torrent rejects a magnet reference containing no
btih:<40-hex> occurrence with a 400 "Invalid magnet link format" and
never proceeds; conversely, whenever extraction succeeds the extracted
identifier is exactly 40 hexadecimal characters and synthesis proceeds
to the torrent response. -/
theorem c4_magnet_validation (torrent_name magnet_link : List Nat) (creation_date : Int) :
    (¬ HasBtih magnet_link →
      generate_torrent torrent_name magnet_link creation_date =
        .error 400 (str2cp "Invalid magnet link format")) ∧
    ∀ ihash, extractInfohash magnet_link = some ihash →
      Is40Hex ihash ∧ HasBtih magnet_link ∧
      generate_torrent torrent_name magnet_link creation_date =
        .ok (str2cp "application/x-bittorrent")
          (torrentBody torrent_name (all_pieces ihash) creation_date) := by
  constructor
  · intro hn
    unfold generate_torrent
    rw [(extract_none_iff magnet_link).mpr hn]
  · intro ihash hx
    refine ⟨extract_is40hex _ _ hx, ?_, ?_⟩
    · by_contra hn
      rw [(extract_none_iff magnet_link).mpr hn] at hx
      cases hx
    · unfold generate_torrent
      rw [hx]

/-- C4 witness: a magnet link whose identifier is not 40 hex
characters is rejected with 400, and the fixed pattern extracts the
40-hex identifier from a well-formed link. -/
theorem c4_magnet_validation_witness :
    (¬ HasBtih (str2cp "magnet:?xt=urn:btih:nothex") ∧
      generate_torrent (str2cp "X") (str2cp "magnet:?xt=urn:btih:nothex") 0 =
        .error 400 (str2cp "Invalid magnet link format")) ∧
    (extractInfohash (str2cp "magnet:?xt=urn:btih:91426fbc17ad836b5a3525aeccbd3360097aeb24") =
        some (str2cp "91426fbc17ad836b5a3525aeccbd3360097aeb24") ∧
      Is40Hex (str2cp "91426fbc17ad836b5a3525aeccbd3360097aeb24")) :=
  ⟨⟨(extract_none_iff (str2cp "magnet:?xt=urn:btih:nothex")).mp (by decide),
    (c4_magnet_validation (str2cp "X") (str2cp "magnet:?xt=urn:btih:nothex") 0).1
      ((extract_none_iff (str2cp "magnet:?xt=urn:btih:nothex")).mp (by decide))⟩,
   ⟨by decide,
    ((c4_magnet_validation (str2cp "X")
        (str2cp "magnet:?xt=urn:btih:91426fbc17ad836b5a3525aeccbd3360097aeb24") 0).2
      (str2cp "91426fbc17ad836b5a3525aeccbd3360097aeb24") (by decide)).1⟩⟩

/-- C3 (amended): an episodic parse lacking a series title or season
number makes search_zilean return None without consulting any search
results (no search performed, no fallback substituted), and get_file
surfaces this to the HTTP caller as a 404 "No matching release found"
— not as a 500 generation failure as originally claimed. -/
theorem c3_invalid_parse_404 (p : ParsedInfo) (hm : p.parsedMovieInfo = none)
    (hinv : (p.parsedEpisodeInfo.getD default).seriesTitle = [] ∨
      (p.parsedEpisodeInfo.getD default).seasonNumber = none)
    (file_name : List Nat) (threshold : ℚ) (results results' : List ZileanResult)
    (creation_date : Int) (current_time : List Nat) :
    search_zilean p threshold results = none ∧
    search_zilean p threshold results = search_zilean p threshold results' ∧
    get_file file_name (str2cp "torrent") p threshold results creation_date current_time =
      .error 404 (str2cp "No matching release found") := by
  have hz : ∀ rs : List ZileanResult, search_zilean p threshold rs = none := by
    intro rs
    unfold search_zilean
    rw [hm]
    dsimp only
    rw [if_pos (by rcases hinv with h | h <;> simp [h])]
  refine ⟨hz results, by rw [hz results, hz results'], ?_⟩
  unfold get_file
  rw [if_neg (by decide), hz results]

/-- C3 counterexample: at a concrete episodic parse with no series
title and no season number, the orchestrator answers 404 "No matching
release found", not the 500 the claim asserts. -/
theorem c3_counterexample :
    get_file (str2cp "Show") (str2cp "torrent")
      ⟨none, some ⟨[], none, [], none⟩, str2cp "Show"⟩ MATCH_THRESHOLD [] 0 [] =
      .error 404 (str2cp "No matching release found") ∧
    httpStatus (get_file (str2cp "Show") (str2cp "torrent")
      ⟨none, some ⟨[], none, [], none⟩, str2cp "Show"⟩ MATCH_THRESHOLD [] 0 []) ≠ 500 := by
  exact ⟨by decide, by decide⟩

/-- C3 witness: the amended theorem applied at a concrete parse whose
series title is empty (season present), with two different candidate
lists. -/
theorem c3_invalid_parse_404_witness :
    search_zilean ⟨none, some ⟨[], some 1, [], none⟩, str2cp "X"⟩ MATCH_THRESHOLD [] = none ∧
    get_file (str2cp "X") (str2cp "torrent") ⟨none, some ⟨[], some 1, [], none⟩, str2cp "X"⟩
      MATCH_THRESHOLD [] 0 [] = .error 404 (str2cp "No matching release found") :=
  ⟨(c3_invalid_parse_404 ⟨none, some ⟨[], some 1, [], none⟩, str2cp "X"⟩ rfl (Or.inl rfl)
      (str2cp "X") MATCH_THRESHOLD [] [⟨some (str2cp "T"), some (str2cp "H")⟩] 0 []).1,
   (c3_invalid_parse_404 ⟨none, some ⟨[], some 1, [], none⟩, str2cp "X"⟩ rfl (Or.inl rfl)
      (str2cp "X") MATCH_THRESHOLD [] [⟨some (str2cp "T"), some (str2cp "H")⟩] 0 []).2.2⟩

/-- C9 (amended): the NZB document is a fixed template parameterized
by the requested file name (interpolated into the title meta and the
subject) and the generation timestamp; with the timestamp fixed, two
requests produce byte-identical responses exactly when the file names
are equal. -/
theorem c9_nzb_template (t n1 n2 : List Nat) :
    generate_nzb n1 t = generate_nzb n2 t ↔ n1 = n2 := by
  constructor
  · intro h
    unfold generate_nzb at h
    injection h with h1 h2
    unfold nzbBody at h2
    have hlen := congrArg List.length h2
    simp only [List.length_append] at hlen
    have hlen' : n1.length = n2.length := by omega
    simp only [List.append_assoc] at h2
    have h3 := List.append_cancel_left h2
    obtain ⟨hn, _⟩ := List.append_inj h3 hlen'
    exact hn
  · rintro rfl
    rfl

set_option maxRecDepth 16000 in
/-- C9 counterexample: at a fixed timestamp, the NZB responses for the
file names "a" and "b" are not byte-identical — the body depends on
the requested file name. -/
theorem c9_counterexample :
    generate_nzb (str2cp "a") (str2cp "2024-01-01 00:00:00 UTC") ≠
      generate_nzb (str2cp "b") (str2cp "2024-01-01 00:00:00 UTC") := by
  decide

/-- C5 witness: the empty candidate list yields the fallback. -/
theorem c5_fallback_characterization_witness :
    search_zilean_match (str2cp "x") MATCH_THRESHOLD [] = .fallback :=
  (c5_fallback_characterization (str2cp "x") MATCH_THRESHOLD []).1.mpr (Or.inl rfl)

/-- C7 witness: idempotence at the concrete title "The.Show-S01E02". -/
theorem c7_normalize_properties_witness :
    normalize_title (normalize_title (str2cp "The.Show-S01E02")) =
      normalize_title (str2cp "The.Show-S01E02") :=
  c7_normalize_properties.1 (str2cp "The.Show-S01E02")

/-- C9 witness: equal file names give byte-identical NZB responses. -/
theorem c9_nzb_template_witness :
    generate_nzb (str2cp "x") (str2cp "2024-01-01 00:00:00 UTC") =
      generate_nzb (str2cp "x") (str2cp "2024-01-01 00:00:00 UTC") :=
  (c9_nzb_template (str2cp "2024-01-01 00:00:00 UTC") (str2cp "x") (str2cp "x")).mpr rfl
